import Mathlib

/-!
Shallow embedding of the core request-to-generation pipeline of the canvas
backend (`backend/app/services/gemini.py`, `backend/app/services/rate_limiter.py`,
`backend/app/routes/generate.py`, `backend/app/models/schemas.py`).

Conventions of the embedding:
* Python strings are `String`/`List Char`; `re.sub` with the two concretely
  occurring patterns is embedded as a left-to-right scanner (leftmost,
  non-overlapping matches, greedy optional groups), which is exactly the
  semantics of those regexes since no backtracking can occur in them.
* Timestamps (`datetime.now()`) and durations (`timedelta`) are `Int`, in an
  arbitrary fixed time unit; `datetime` comparison and subtraction become
  `Int` comparison and subtraction, which is faithful because the code only
  ever compares and subtracts these values.
* The external generative API client and the standard-library base64 decoder
  are external collaborators; they enter the embedding as function parameters
  returning `Except` (a Python exception becomes `Except.error`).
* The mutable module-level dict `request_counts` becomes explicit state of
  type `String → List Int` threaded through `check_rate_limit`.
* Console printing and best-effort log-file writing are side effects with no
  influence on any value or control path modelled here (the inner logging
  `try` swallows its own failures), so they are dropped.
-/

/-! ### Response sanitizer (gemini.py lines 128-130)

The source is
  `code = re.sub(r'<fence>(?:openscad|javascript|js)?\n?', '', code)`
  `code = re.sub(r'<fence>', '', code)`
  `code = code.strip()`
where `<fence>` is three backticks. -/

/-- Backquote character, the one the fence patterns are made of. -/
def bq : Char := Char.ofNat 96

/-- Three backquotes: the code-fence marker of both regexes. -/
def fence : List Char := [bq, bq, bq]

/-- Language-tag alternation `(?:openscad|javascript|js)?` of the first regex:
drop the first alternative that matches, in the regex's order, or nothing. -/
def tagDrop (l : List Char) : List Char :=
  if ("openscad".toList).isPrefixOf l then l.drop 8
  else if ("javascript".toList).isPrefixOf l then l.drop 10
  else if ("js".toList).isPrefixOf l then l.drop 2
  else l

/-- Optional newline `\n?` at the end of the first regex's match. -/
def nlDrop (l : List Char) : List Char :=
  match l with
  | [] => []
  | c :: t => if c = '\n' then t else c :: t

/-- Scanner for the first `re.sub`: at each position, if the fence matches,
consume it together with the greedy optional tag and optional newline and
emit nothing; otherwise emit the character and move on.  The fuel argument
makes the definition structural; `removeFences` supplies enough fuel. -/
def removeFencesAux : Nat → List Char → List Char
  | 0, l => l
  | _ + 1, [] => []
  | fuel + 1, c :: rest =>
    if fence.isPrefixOf (c :: rest) then
      removeFencesAux fuel (nlDrop (tagDrop (List.drop 2 rest)))
    else c :: removeFencesAux fuel rest

/-- First `re.sub`: globally delete fence markers with optional language tag
and optional trailing newline. -/
def removeFences (l : List Char) : List Char := removeFencesAux l.length l

/-- Scanner for the second `re.sub`: globally delete bare fence markers. -/
def removeTicksAux : Nat → List Char → List Char
  | 0, l => l
  | _ + 1, [] => []
  | fuel + 1, c :: rest =>
    if fence.isPrefixOf (c :: rest) then removeTicksAux fuel (List.drop 2 rest)
    else c :: removeTicksAux fuel rest

/-- Second `re.sub`: globally delete bare fence markers. -/
def removeTicks (l : List Char) : List Char := removeTicksAux l.length l

/-- Characters Python's `str.strip()` removes: code points whose `str.isspace()`
holds (ASCII whitespace, the C1/latin-1 spaces, and the Unicode space
separators). -/
def pySpace (c : Char) : Bool :=
  c.toNat ∈ [9, 10, 11, 12, 13, 28, 29, 30, 31, 32, 133, 160,
    0x1680, 0x2000, 0x2001, 0x2002, 0x2003, 0x2004, 0x2005, 0x2006, 0x2007,
    0x2008, 0x2009, 0x200A, 0x2028, 0x2029, 0x202F, 0x205F, 0x3000]

/-- Python `str.strip()`: drop whitespace from the front, then from the back. -/
def pyStrip (l : List Char) : List Char :=
  ((l.dropWhile pySpace).reverse.dropWhile pySpace).reverse

/-- Whole sanitizer of gemini.py lines 128-130, on character lists. -/
def sanitizeChars (l : List Char) : List Char :=
  pyStrip (removeTicks (removeFences l))

/-- Whole sanitizer of gemini.py lines 128-130, on strings. -/
def sanitize (s : String) : String := String.mk (sanitizeChars s.data)

/-! ### Rate limiter (rate_limiter.py) -/

/-- State of the module-level `request_counts = defaultdict(list)`: a total
map from client identity to its stored timestamps (a missing key reads as the
empty list, exactly the `defaultdict(list)` behaviour). -/
def RLState : Type := String → List Int

/-- Initial `request_counts`: every key reads as the empty list. -/
def initial_request_counts : RLState := fun _ => []

/-- Point update of the state, as Python's `request_counts[ip] = lst`. -/
def updateState (s : RLState) (client : String) (l : List Int) : RLState :=
  fun c => if c = client then l else s c

/-- Client identity extraction: `request.client.host if request.client else "unknown"`. -/
def clientHost : Option String → String
  | some h => h
  | none => "unknown"

/-- Default `max_requests` parameter of `check_rate_limit`. -/
def default_max_requests : Nat := 10

/-- Default `window_minutes` parameter of `check_rate_limit`. -/
def default_window_minutes : Int := 1

/-- Embedding of `check_rate_limit` (rate_limiter.py lines 9-33): compute the
window start, prune the client's timestamps down to those strictly inside the
window and store the pruned list, reject if the pruned count has reached
`max_requests`, otherwise append `now` and admit.  Returns the admit decision
together with the post-call state. -/
def check_rate_limit (s : RLState) (client : String) (now : Int)
    (max_requests : Nat) (window : Int) : Bool × RLState :=
  let window_start := now - window
  let pruned := (s client).filter (fun t => decide (window_start < t))
  let s1 := updateState s client pruned
  if max_requests ≤ pruned.length then (false, s1)
  else (true, updateState s1 client (pruned ++ [now]))

/-- Repeated calls of `check_rate_limit` for one client at the given sequence
of times, collecting the admit decisions and the final state. -/
def runSeq (client : String) (max_requests : Nat) (window : Int) :
    RLState → List Int → List Bool × RLState
  | s, [] => ([], s)
  | s, t :: ts =>
    let r := check_rate_limit s client t max_requests window
    let rest := runSeq client max_requests window r.2 ts
    (r.1 :: rest.1, rest.2)

/-- One inbound call to the rate limiter: the checked client and the call time. -/
structure RLCall where
  client : String
  now : Int

/-- Run a sequence of `check_rate_limit` calls (possibly of several clients)
from a given state, keeping only the final state. -/
def runLimiter (max_requests : Nat) (window : Int) :
    RLState → List RLCall → RLState
  | s, [] => s
  | s, c :: cs =>
    runLimiter max_requests window
      (check_rate_limit s c.client c.now max_requests window).2 cs

/-! ### Prompt builder and model fallback dispatcher (gemini.py) -/

/-- Request schema of `schemas.py`: `GenerateRequest` carries exactly a base64
image string and a prompt string (there is no further field). -/
structure GenerateRequest where
  imageBase64 : String
  prompt : String

/-- Verbatim `SYSTEM_PROMPT` constant of gemini.py (braces and apostrophes
written as character escapes). -/
def SYSTEM_PROMPT : String := "You are an expert JSCAD (OpenJSCAD) programmer. Generate 3D models for a web-based physical compiler.\n\nGuidelines:\n- Output ONLY valid JavaScript code containing a main() function\n- The main function must return the 3D geometry\n- Use @jscad/modeling primitives and operations\n- Default units are millimeters\n- **CRITICAL**: Do NOT use require(). All JSCAD modelling functions are available via the global `jscad` object.\n- **CRITICAL**: You MUST destruct primitives from `jscad` at the start of `main`.\n- **CRITICAL**: Boolean operations (union, subtract, intersect) return a SINGLE geometry object, NOT an array. NEVER call .map() on the result of a boolean operation. To transform the result, wrap it in a transform function, e.g., `translate([x, y, z], result)`.\n\nExample format:\n\nconst getParameterDefinitions = () => \x7b\n  return [\n    \x7b name: \x27size\x27, type: \x27float\x27, initial: 50, caption: \x27Size\x27 \x7d\n  ];\n\x7d\n\nconst main = (params) => \x7b\n  // Destructure from Global jscad object\n  const \x7b cuboid, cylinder \x7d = jscad.primitives;\n  const \x7b translate \x7d = jscad.transforms;\n  const \x7b union, subtract \x7d = jscad.booleans;\n\n  const size = params.size || 50;\n\n  const base = cuboid(\x7bsize: [size, size, 5]\x7d);\n  const hole = cylinder(\x7bheight: 20, radius: 5, segments: 32\x7d);\n  \n  // Correct: Apply transform to the single result\n  const part = subtract(base, hole);\n  return translate([0, 0, 10], part); \n\x7d\n\nmodule.exports = \x7b main, getParameterDefinitions \x7d;\n\nIMPORTANT: Return ONLY the code, no markdown fencing.\n"

/-- Content parts of the request to the generative API: a text part
(`types.Part.from_text`) or a binary part with a MIME type
(`types.Part.from_bytes`). -/
inductive GenPart where
  | text (s : String)
  | bytes (data : List Nat) (mime : String)
deriving DecidableEq

/-- User-context text part of gemini.py line 73: the f-string
`"\n\nUser description: " + prompt`. -/
def userContextText (prompt : String) : String :=
  "\n\nUser description: " ++ prompt

/-- Prompt assembly of gemini.py lines 71-75: system instruction, user
description, then the decoded image bytes tagged `image/png`. -/
def buildParts (imageBytes : List Nat) (prompt : String) : List GenPart :=
  [GenPart.text SYSTEM_PROMPT,
   GenPart.text (userContextText prompt),
   GenPart.bytes imageBytes "image/png"]

/-- Hardcoded candidate list `models_to_try` of gemini.py line 86. -/
def models_to_try : List String :=
  ["gemini-3-pro-preview", "gemini-3-flash-preview", "gemini-2.5-flash"]

/-- Python `str(last_exception)` where `last_exception` starts out as `None`. -/
def strLastError : Option String → String
  | none => "None"
  | some e => e

/-- Fallback loop of gemini.py lines 89-142 with an attempt trace.  `attempt m`
is the outcome of one invocation of the generative API with candidate `m`
against the fixed assembled parts: `Except.ok raw` is a non-error response
with extractable text `raw`, `Except.error e` is any raised exception (the
string the exception displays as).  On the first success the sanitized code is
returned at once; each failure is recorded as the last error and the next
candidate is tried; an exhausted list raises the aggregate error of line 142.
The second component lists the candidates actually attempted, in order. -/
def dispatchTrace (attempt : String → Except String String) :
    List String → Option String → Except String String × List String
  | [], lastError =>
    (Except.error ("Gemini API error: All models failed. Last error: " ++
      strLastError lastError), [])
  | m :: rest, _ =>
    match attempt m with
    | Except.ok raw => (Except.ok (sanitize raw), [m])
    | Except.error e =>
      let r := dispatchTrace attempt rest (some e)
      (r.1, m :: r.2)

/-- Result of the fallback loop alone. -/
def dispatch (attempt : String → Except String String)
    (models : List String) : Except String String :=
  (dispatchTrace attempt models none).1

/-- Whole `generate_openscad` of gemini.py with an attempt trace: missing API
key raises at once; a base64 decode failure raises
`"Invalid base64 image data: ..."` before any model is attempted; otherwise
the parts are assembled and the fallback loop runs over `models_to_try`.
`b64decode` stands for `base64.b64decode` (an `Except.error` is the raised
`binascii.Error`), `attempt m parts` for one generative-API invocation. -/
def generate_openscadT (apiKeyConfigured : Bool)
    (b64decode : String → Except String (List Nat))
    (attempt : String → List GenPart → Except String String)
    (image prompt : String) : Except String String × List String :=
  if apiKeyConfigured = false then
    (Except.error "GEMINI_API_KEY not configured", [])
  else
    match b64decode image with
    | Except.error e =>
      (Except.error ("Invalid base64 image data: " ++ toString e), [])
    | Except.ok imageBytes =>
      dispatchTrace (fun m => attempt m (buildParts imageBytes prompt))
        models_to_try none

/-- Result component of `generate_openscadT`. -/
def generate_openscad (apiKeyConfigured : Bool)
    (b64decode : String → Except String (List Nat))
    (attempt : String → List GenPart → Except String String)
    (image prompt : String) : Except String String :=
  (generate_openscadT apiKeyConfigured b64decode attempt image prompt).1

/-- Modelled from the spec: the new-design-mode context text of section 4.2
(`contextText = "USER INSTRUCTION: " + prompt`), which is absent from the
source; defined here only to be compared with `userContextText`. -/
def spec_newDesignContext (prompt : String) : String :=
  "USER INSTRUCTION: " ++ prompt

/-! ### Rate limiter lemmas -/

/-- Lookup after a point update of the updated key. -/
lemma updateState_same (s : RLState) (client : String) (l : List Int) :
    updateState s client l client = l := by
  simp [updateState]

/-- Admitting call: if the pruned count is below the limit, the call returns
true and the stored list becomes the pruned list with `now` appended. -/
lemma check_rate_limit_admits (s : RLState) (client : String) (now : Int)
    (maxR : Nat) (window : Int)
    (h : ((s client).filter (fun t => decide (now - window < t))).length < maxR) :
    check_rate_limit s client now maxR window =
      (true, updateState (updateState s client
        ((s client).filter (fun t => decide (now - window < t)))) client
        ((s client).filter (fun t => decide (now - window < t)) ++ [now])) := by
  simp only [check_rate_limit]
  rw [if_neg (by omega)]

/-- Rejecting call: if the pruned count has reached the limit, the call
returns false and the stored list becomes exactly the pruned list. -/
lemma check_rate_limit_reject (s : RLState) (client : String) (now : Int)
    (maxR : Nat) (window : Int)
    (h : maxR ≤ ((s client).filter (fun t => decide (now - window < t))).length) :
    check_rate_limit s client now maxR window =
      (false, updateState s client
        ((s client).filter (fun t => decide (now - window < t)))) := by
  simp only [check_rate_limit]
  rw [if_pos h]

/-- During a run in which every involved timestamp lies strictly inside every
call's window, and which has room for all its calls, every call is admitted
and the client's stored list ends up extended by exactly the call times. -/
lemma runSeq_all_admits (client : String) (maxR : Nat) (window : Int) :
    ∀ (times : List Int) (s : RLState),
      (s client).length + times.length ≤ maxR →
      (∀ t ∈ times, ∀ x ∈ s client ++ times, t - window < x) →
      (runSeq client maxR window s times).1 = List.replicate times.length true ∧
      (runSeq client maxR window s times).2 client = s client ++ times := by
  intro times
  induction times with
  | nil => intro s _ _; simp [runSeq]
  | cons t ts ih =>
    intro s hlen hwin
    have hmem : ∀ x ∈ s client, t - window < x := fun x hx =>
      hwin t (List.mem_cons_self _ _) x (List.mem_append_left _ hx)
    have hprune : (s client).filter (fun x => decide (t - window < x)) = s client := by
      rw [List.filter_eq_self]
      intro a ha
      exact decide_eq_true (hmem a ha)
    have hlt : ((s client).filter (fun x => decide (t - window < x))).length < maxR := by
      rw [hprune]
      simp only [List.length_cons] at hlen
      omega
    have hstep := check_rate_limit_admits s client t maxR window hlt
    rw [hprune] at hstep
    have hs2 : (check_rate_limit s client t maxR window).2 client
        = s client ++ [t] := by
      rw [hstep]
      simp [updateState]
    have hlen2 : ((check_rate_limit s client t maxR window).2 client).length
        + ts.length ≤ maxR := by
      rw [hs2]
      simp only [List.length_append, List.length_cons, List.length_nil] at hlen ⊢
      omega
    have hwin2 : ∀ u ∈ ts,
        ∀ x ∈ (check_rate_limit s client t maxR window).2 client ++ ts,
          u - window < x := by
      intro u hu x hx
      rw [hs2, List.append_assoc, List.singleton_append] at hx
      exact hwin u (List.mem_cons_of_mem _ hu) x hx
    obtain ⟨ih1, ih2⟩ := ih _ hlen2 hwin2
    have h1 : (check_rate_limit s client t maxR window).1 = true := by
      rw [hstep]
    constructor
    · simp only [runSeq, List.length_cons, List.replicate_succ]
      rw [h1, ih1]
    · simp only [runSeq]
      rw [ih2, hs2, List.append_assoc, List.singleton_append]

/-- Starting from a state with room for all the calls, every call of a run is
admitted, irrespective of the call times. -/
lemma runSeq_room_admits (client : String) (maxR : Nat) (window : Int) :
    ∀ (times : List Int) (s : RLState),
      (s client).length + times.length ≤ maxR →
      (runSeq client maxR window s times).1 = List.replicate times.length true := by
  intro times
  induction times with
  | nil => intro s _; simp [runSeq]
  | cons t ts ih =>
    intro s hlen
    have hle : ((s client).filter (fun x => decide (t - window < x))).length
        ≤ (s client).length := List.length_filter_le _ _
    have hlt : ((s client).filter (fun x => decide (t - window < x))).length < maxR := by
      simp only [List.length_cons] at hlen
      omega
    have hstep := check_rate_limit_admits s client t maxR window hlt
    have hs2 : (check_rate_limit s client t maxR window).2 client
        = (s client).filter (fun x => decide (t - window < x)) ++ [t] := by
      rw [hstep]
      simp [updateState]
    have hlen2 : ((check_rate_limit s client t maxR window).2 client).length
        + ts.length ≤ maxR := by
      rw [hs2]
      simp only [List.length_append, List.length_cons, List.length_nil] at hlen ⊢
      omega
    have h1 : (check_rate_limit s client t maxR window).1 = true := by
      rw [hstep]
    have ih1 := ih _ hlen2
    simp only [runSeq, List.length_cons, List.replicate_succ]
    rw [h1, ih1]

/-- Splitting a run at an intermediate point. -/
lemma runSeq_append (client : String) (maxR : Nat) (window : Int) :
    ∀ (as bs : List Int) (s : RLState),
      runSeq client maxR window s (as ++ bs) =
        ((runSeq client maxR window s as).1 ++
          (runSeq client maxR window (runSeq client maxR window s as).2 bs).1,
         (runSeq client maxR window (runSeq client maxR window s as).2 bs).2) := by
  intro as
  induction as with
  | nil => intro bs s; simp [runSeq]
  | cons a as ih =>
    intro bs s
    simp only [List.cons_append, runSeq, List.append_eq, ih]

/-- Invariant of the limiter state: every client's stored list is sorted,
bounded above by `b` (the latest call time so far), and no longer than the
limit. -/
def StateBounded (maxR : Nat) (b : Int) (s : RLState) : Prop :=
  ∀ cl, ((s cl).Sorted (· ≤ ·)) ∧ (∀ t ∈ s cl, t ≤ b) ∧ (s cl).length ≤ maxR

/-- The initial empty state satisfies the invariant for any bound. -/
lemma stateBounded_initial (maxR : Nat) (b : Int) :
    StateBounded maxR b initial_request_counts := by
  intro cl
  refine ⟨?_, ?_, ?_⟩ <;> simp [initial_request_counts]

/-- One `check_rate_limit` call preserves the invariant, raising the bound to
the call time, and leaves the checked client's list populated only with
timestamps strictly inside the call's window (for a positive window). -/
lemma check_rate_limit_inv (maxR : Nat) (window : Int) (s : RLState)
    (cl : String) (now b : Int) (hs : StateBounded maxR b s) (hb : b ≤ now) :
    StateBounded maxR now (check_rate_limit s cl now maxR window).2 ∧
    (0 < window →
      ∀ t ∈ (check_rate_limit s cl now maxR window).2 cl, now - window < t) := by
  obtain ⟨hsort, hbound, hlen⟩ := hs cl
  have hsortP : ((s cl).filter (fun t => decide (now - window < t))).Sorted (· ≤ ·) :=
    List.Pairwise.filter _ hsort
  have hmemP : ∀ t ∈ (s cl).filter (fun t => decide (now - window < t)),
      t ∈ s cl := fun t ht => (List.mem_filter.mp ht).1
  have hwinP : ∀ t ∈ (s cl).filter (fun t => decide (now - window < t)),
      now - window < t := fun t ht =>
    of_decide_eq_true (List.mem_filter.mp ht).2
  have hlenP : ((s cl).filter (fun t => decide (now - window < t))).length
      ≤ (s cl).length := List.length_filter_le _ _
  by_cases hfull : maxR ≤ ((s cl).filter (fun t => decide (now - window < t))).length
  · rw [check_rate_limit_reject s cl now maxR window hfull]
    dsimp only
    constructor
    · intro c
      by_cases hc : c = cl
      · subst hc
        rw [updateState_same]
        exact ⟨hsortP, fun t ht => le_trans (hbound t (hmemP t ht)) hb,
          le_trans hlenP hlen⟩
      · have heq : updateState s cl
            ((s cl).filter (fun t => decide (now - window < t))) c = s c := by
          simp [updateState, hc]
        rw [heq]
        obtain ⟨h1, h2, h3⟩ := hs c
        exact ⟨h1, fun t ht => le_trans (h2 t ht) hb, h3⟩
    · intro _ t ht
      rw [updateState_same] at ht
      exact hwinP t ht
  · push_neg at hfull
    rw [check_rate_limit_admits s cl now maxR window hfull]
    dsimp only
    have hupd : ∀ l, updateState (updateState s cl
        ((s cl).filter (fun t => decide (now - window < t)))) cl l
        = updateState s cl l := by
      intro l
      funext c
      by_cases hc : c = cl <;> simp [updateState, hc]
    rw [hupd]
    have hsort2 : (((s cl).filter (fun t => decide (now - window < t)))
        ++ [now]).Sorted (· ≤ ·) := by
      rw [List.Sorted, List.pairwise_append]
      refine ⟨hsortP, List.pairwise_singleton _ _, ?_⟩
      intro x hx y hy
      rw [List.mem_singleton] at hy
      subst hy
      exact le_trans (hbound x (hmemP x hx)) hb
    constructor
    · intro c
      by_cases hc : c = cl
      · subst hc
        rw [updateState_same]
        refine ⟨hsort2, ?_, ?_⟩
        · intro t ht
          rw [List.mem_append, List.mem_singleton] at ht
          rcases ht with ht | ht
          · exact le_trans (hbound t (hmemP t ht)) hb
          · exact le_of_eq ht
        · rw [List.length_append, List.length_cons, List.length_nil]
          omega
      · have heq : updateState s cl
            ((s cl).filter (fun t => decide (now - window < t)) ++ [now]) c = s c := by
          simp [updateState, hc]
        rw [heq]
        obtain ⟨h1, h2, h3⟩ := hs c
        exact ⟨h1, fun t ht => le_trans (h2 t ht) hb, h3⟩
    · intro hw t ht
      rw [updateState_same, List.mem_append, List.mem_singleton] at ht
      rcases ht with ht | ht
      · exact hwinP t ht
      · subst ht
        omega

/-- Running the limiter over a monotone call sequence ending in call `c`
leaves the checked client of `c` with a sorted, windowed, bounded list. -/
lemma runLimiter_inv (maxR : Nat) (window : Int) (c : RLCall) :
    ∀ (done : List RLCall) (s : RLState) (b : Int),
      StateBounded maxR b s →
      ((done ++ [c]).map RLCall.now).Sorted (· ≤ ·) →
      (∀ t ∈ (done ++ [c]).map RLCall.now, b ≤ t) →
      ((runLimiter maxR window s (done ++ [c])) c.client).Sorted (· ≤ ·) ∧
      (0 < window →
        ∀ t ∈ (runLimiter maxR window s (done ++ [c])) c.client, c.now - window < t) ∧
      ((runLimiter maxR window s (done ++ [c])) c.client).length ≤ maxR := by
  intro done
  induction done with
  | nil =>
    intro s b hs _ hge
    have hb : b ≤ c.now := hge c.now (by simp)
    obtain ⟨hinv, hwin⟩ := check_rate_limit_inv maxR window s c.client c.now b hs hb
    obtain ⟨h1, _, h3⟩ := hinv c.client
    simp only [List.nil_append, runLimiter]
    exact ⟨h1, hwin, h3⟩
  | cons d done ih =>
    intro s b hs hsort hge
    have hb : b ≤ d.now := hge d.now (by simp)
    obtain ⟨hinv, _⟩ := check_rate_limit_inv maxR window s d.client d.now b hs hb
    simp only [List.cons_append, List.map_cons, List.sorted_cons] at hsort
    have hge2 : ∀ t ∈ (done ++ [c]).map RLCall.now, d.now ≤ t := hsort.1
    simp only [List.cons_append, runLimiter]
    exact ih _ d.now hinv hsort.2 hge2

/-! ### Claims C3, C4, C5, C10 -/

/-- C3: whenever a client's pruned in-window count has reached `maxRequests`,
`check_rate_limit` returns false and stores exactly the pruned list — the
rejected attempt is not recorded; and, in particular, a fresh client making
`maxRequests + 1` calls inside one window has the first `maxRequests` calls
admitted and the `(maxRequests+1)`-th rejected. -/
theorem claim_C3 :
    (∀ (s : RLState) (client : String) (now : Int) (maxR : Nat) (window : Int),
      maxR ≤ ((s client).filter (fun t => decide (now - window < t))).length →
        (check_rate_limit s client now maxR window).1 = false ∧
        (check_rate_limit s client now maxR window).2 client =
          (s client).filter (fun t => decide (now - window < t))) ∧
    (∀ (client : String) (maxR : Nat) (window : Int) (times : List Int) (tl : Int),
      times.length = maxR →
      (∀ x ∈ times ++ [tl], tl - window < x ∧ x ≤ tl) →
      (runSeq client maxR window initial_request_counts (times ++ [tl])).1 =
        List.replicate maxR true ++ [false]) := by
  constructor
  · intro s client now maxR window h
    rw [check_rate_limit_reject s client now maxR window h]
    dsimp only
    exact ⟨rfl, updateState_same _ _ _⟩
  · intro client maxR window times tl hlen hwin
    have hinit : initial_request_counts client = [] := rfl
    have hadm := runSeq_all_admits client maxR window times initial_request_counts
      (by rw [hinit, hlen]; simp)
      (by
        intro t ht x hx
        rw [hinit, List.nil_append] at hx
        have h1 := (hwin x (List.mem_append_left _ hx)).1
        have h2 := (hwin t (List.mem_append_left _ ht)).2
        omega)
    rw [runSeq_append]
    rw [hadm.1, hlen]
    have hsf : (runSeq client maxR window initial_request_counts times).2 client
        = times := by rw [hadm.2, hinit, List.nil_append]
    have hfilter : times.filter (fun t => decide (tl - window < t)) = times := by
      rw [List.filter_eq_self]
      intro a ha
      exact decide_eq_true (hwin a (List.mem_append_left _ ha)).1
    have hfull : maxR ≤
        (((runSeq client maxR window initial_request_counts times).2 client).filter
          (fun t => decide (tl - window < t))).length := by
      rw [hsf, hfilter, hlen]
    have hrej := check_rate_limit_reject _ client tl maxR window hfull
    simp only [runSeq, hrej]

/-- C3 witness: a client holding two in-window timestamps against a limit of
two is rejected with its list unchanged, and a fresh client's third call
inside a window of sixty under a limit of two is the rejected one. -/
theorem claim_C3_witness :
    ((2 ≤ ((([4, 5] : List Int)).filter (fun t => decide ((6:Int) - 60 < t))).length) ∧
      (check_rate_limit (fun _ => ([4, 5] : List Int)) "c" 6 2 60).1 = false ∧
      (check_rate_limit (fun _ => ([4, 5] : List Int)) "c" 6 2 60).2 "c" =
        (([4, 5] : List Int)).filter (fun t => decide ((6:Int) - 60 < t))) ∧
    ((([1, 2] : List Int).length = 2) ∧
      (∀ x ∈ ([1, 2] : List Int) ++ [3], (3:Int) - 60 < x ∧ x ≤ 3) ∧
      (runSeq "a" 2 60 initial_request_counts (([1, 2] : List Int) ++ [3])).1 =
        List.replicate 2 true ++ [false]) :=
  ⟨⟨by decide, claim_C3.1 (fun _ => [4, 5]) "c" 6 2 60 (by decide)⟩,
   ⟨by decide, by decide, claim_C3.2 "a" 2 60 [1, 2] 3 (by decide) (by decide)⟩⟩

/-- C4: a call finding its pruned in-window count below `maxRequests` is
admitted and appends the call time to the stored list; and a fresh client
making at most `maxRequests` calls — at any times whatsoever — has every call
admitted. -/
theorem claim_C4 :
    (∀ (s : RLState) (client : String) (now : Int) (maxR : Nat) (window : Int),
      ((s client).filter (fun t => decide (now - window < t))).length < maxR →
        (check_rate_limit s client now maxR window).1 = true ∧
        (check_rate_limit s client now maxR window).2 client =
          (s client).filter (fun t => decide (now - window < t)) ++ [now]) ∧
    (∀ (client : String) (maxR : Nat) (window : Int) (times : List Int),
      times.length ≤ maxR →
      (runSeq client maxR window initial_request_counts times).1 =
        List.replicate times.length true) := by
  constructor
  · intro s client now maxR window h
    rw [check_rate_limit_admits s client now maxR window h]
    dsimp only
    exact ⟨rfl, updateState_same _ _ _⟩
  · intro client maxR window times hlen
    exact runSeq_room_admits client maxR window times initial_request_counts
      (by simp [initial_request_counts]; omega)

/-- C4 witness: a client with one in-window timestamp against a limit of two
is admitted and the call time is appended; and three calls of a fresh client
under a limit of three are all admitted even when spread far apart. -/
theorem claim_C4_witness :
    (((([4] : List Int)).filter (fun t => decide ((6:Int) - 60 < t))).length < 2 ∧
      (check_rate_limit (fun _ => ([4] : List Int)) "c" 6 2 60).1 = true ∧
      (check_rate_limit (fun _ => ([4] : List Int)) "c" 6 2 60).2 "c" =
        (([4] : List Int)).filter (fun t => decide ((6:Int) - 60 < t)) ++ [6]) ∧
    ((([1, 50, 200] : List Int)).length ≤ 3 ∧
      (runSeq "a" 3 10 initial_request_counts ([1, 50, 200] : List Int)).1 =
        List.replicate ([1, 50, 200] : List Int).length true) :=
  ⟨⟨by decide, claim_C4.1 (fun _ => [4]) "c" 6 2 60 (by decide)⟩,
   ⟨by decide, claim_C4.2 "a" 3 10 [1, 50, 200] (by decide)⟩⟩

/-- C5: every call prunes first — the admit decision is exactly a comparison
of the pruned count against the limit, and the stored list after the call is
the pruned list, extended by the call time exactly on admission; consequently
a client whose list is full is admitted again at any time lying more than
`windowDuration` after its earliest stored timestamp. -/
theorem claim_C5 :
    (∀ (s : RLState) (client : String) (now : Int) (maxR : Nat) (window : Int),
      ((check_rate_limit s client now maxR window).1 = true ↔
        ((s client).filter (fun t => decide (now - window < t))).length < maxR) ∧
      (check_rate_limit s client now maxR window).2 client =
        (s client).filter (fun t => decide (now - window < t)) ++
          (if ((s client).filter (fun t => decide (now - window < t))).length < maxR
            then [now] else [])) ∧
    (∀ (s : RLState) (client : String) (maxR : Nat) (window tNew e : Int),
      (s client).Sorted (· ≤ ·) →
      (s client).head? = some e →
      (s client).length ≤ maxR →
      window < tNew - e →
      (check_rate_limit s client tNew maxR window).1 = true) := by
  constructor
  · intro s client now maxR window
    by_cases hfull : maxR ≤
        ((s client).filter (fun t => decide (now - window < t))).length
    · rw [check_rate_limit_reject s client now maxR window hfull]
      dsimp only
      refine ⟨?_, ?_⟩
      · exact ⟨fun h => absurd h Bool.false_ne_true,
          fun h => absurd hfull (not_le.mpr h)⟩
      · rw [if_neg (by omega), List.append_nil, updateState_same]
    · push_neg at hfull
      rw [check_rate_limit_admits s client now maxR window hfull]
      dsimp only
      refine ⟨⟨fun _ => hfull, fun _ => rfl⟩, ?_⟩
      rw [if_pos hfull, updateState_same]
  · intro s client maxR window tNew e _ hhead hlen hwait
    rcases hl : s client with _ | ⟨a, tail⟩
    · rw [hl] at hhead
      simp at hhead
    · rw [hl] at hhead
      simp only [List.head?_cons, Option.some.injEq] at hhead
      rw [hhead] at hl
      have hne : ¬ (tNew - window < e) := by omega
      have hfilter : (s client).filter (fun t => decide (tNew - window < t))
          = tail.filter (fun t => decide (tNew - window < t)) := by
        rw [hl, List.filter_cons]
        simp [hne]
      have hlt : ((s client).filter (fun t => decide (tNew - window < t))).length
          < maxR := by
        rw [hfilter]
        have h1 := List.length_filter_le (fun t => decide (tNew - window < t)) tail
        have h2 : (s client).length = tail.length + 1 := by rw [hl]; rfl
        omega
      rw [check_rate_limit_admits s client tNew maxR window hlt]

/-- C5 witness: the pruning equation at a concrete mixed state, and a client
blocked with a full window `[1, 2]` under a limit of two admitted again at
time eight with a window of five. -/
theorem claim_C5_witness :
    (((check_rate_limit (fun _ => ([4, 5] : List Int)) "c" 6 2 60).1 = true ↔
      ((([4, 5] : List Int)).filter (fun t => decide ((6:Int) - 60 < t))).length < 2) ∧
      (check_rate_limit (fun _ => ([4, 5] : List Int)) "c" 6 2 60).2 "c" =
        (([4, 5] : List Int)).filter (fun t => decide ((6:Int) - 60 < t)) ++
          (if ((([4, 5] : List Int)).filter (fun t => decide ((6:Int) - 60 < t))).length < 2
            then [6] else [])) ∧
    ((([1, 2] : List Int).Sorted (· ≤ ·)) ∧
      (([1, 2] : List Int).head? = some 1) ∧
      (([1, 2] : List Int).length ≤ 2) ∧
      ((5:Int) < 8 - 1) ∧
      (check_rate_limit (fun _ => ([1, 2] : List Int)) "b" 8 2 5).1 = true) :=
  ⟨claim_C5.1 (fun _ => [4, 5]) "c" 6 2 60,
   ⟨by decide, by decide, by decide, by decide,
    claim_C5.2 (fun _ => [1, 2]) "b" 2 5 8 1 (by decide) (by decide)
      (by decide) (by decide)⟩⟩

/-- C10: after any call made at the end of a run with nondecreasing call
times, from the initial empty state, with a positive window and a fixed
limit, the checked client's stored list is sorted ascending, contains only
timestamps strictly greater than that call's `now - windowDuration`, and has
length at most `maxRequests`. -/
theorem claim_C10 (maxR : Nat) (window : Int) (done : List RLCall) (c : RLCall)
    (hw : 0 < window)
    (hmono : ((done ++ [c]).map RLCall.now).Sorted (· ≤ ·)) :
    ((runLimiter maxR window initial_request_counts (done ++ [c])) c.client).Sorted (· ≤ ·) ∧
    (∀ t ∈ (runLimiter maxR window initial_request_counts (done ++ [c])) c.client,
      c.now - window < t) ∧
    ((runLimiter maxR window initial_request_counts (done ++ [c])) c.client).length ≤ maxR := by
  have hne : ((done ++ [c]).map RLCall.now) ≠ [] := by simp
  obtain ⟨b, rest, heq⟩ := List.exists_cons_of_ne_nil hne
  have hge : ∀ t ∈ (done ++ [c]).map RLCall.now, b ≤ t := by
    intro t ht
    rw [heq] at ht hmono
    rw [List.sorted_cons] at hmono
    rcases List.mem_cons.mp ht with h | h
    · exact le_of_eq h.symm
    · exact hmono.1 t h
  obtain ⟨h1, h2, h3⟩ := runLimiter_inv maxR window c done initial_request_counts b
    (stateBounded_initial maxR b) hmono hge
  exact ⟨h1, h2 hw, h3⟩

/-- C10 witness: four monotone calls of one client under a limit of two and a
window of five leave a sorted two-element list inside the final window. -/
theorem claim_C10_witness :
    (0:Int) < 5 ∧
    ((([RLCall.mk "a" 1, RLCall.mk "a" 2, RLCall.mk "a" 3] : List RLCall) ++
      [RLCall.mk "a" 4]).map RLCall.now).Sorted (· ≤ ·) ∧
    (((runLimiter 2 5 initial_request_counts
        (([RLCall.mk "a" 1, RLCall.mk "a" 2, RLCall.mk "a" 3] : List RLCall) ++ [RLCall.mk "a" 4]))
        (RLCall.mk "a" 4).client).Sorted (· ≤ ·) ∧
      (∀ t ∈ (runLimiter 2 5 initial_request_counts
        (([RLCall.mk "a" 1, RLCall.mk "a" 2, RLCall.mk "a" 3] : List RLCall) ++ [RLCall.mk "a" 4]))
        (RLCall.mk "a" 4).client, (RLCall.mk "a" 4).now - 5 < t) ∧
      ((runLimiter 2 5 initial_request_counts
        (([RLCall.mk "a" 1, RLCall.mk "a" 2, RLCall.mk "a" 3] : List RLCall) ++ [RLCall.mk "a" 4]))
        (RLCall.mk "a" 4).client).length ≤ 2) :=
  ⟨by decide, by decide,
   claim_C10 2 5 [RLCall.mk "a" 1, RLCall.mk "a" 2, RLCall.mk "a" 3] (RLCall.mk "a" 4) (by decide) (by decide)⟩

/-! ### Dispatcher lemmas and claims C1, C2 -/

/-- One step of the fallback loop at a failing candidate. -/
lemma dispatchTrace_cons_error (attempt : String → Except String String)
    (m : String) (rest : List String) (lastError : Option String) (e : String)
    (he : attempt m = Except.error e) :
    dispatchTrace attempt (m :: rest) lastError =
      ((dispatchTrace attempt rest (some e)).1,
       m :: (dispatchTrace attempt rest (some e)).2) := by
  conv_lhs => rw [dispatchTrace]
  rw [he]

/-- One step of the fallback loop at a succeeding candidate. -/
lemma dispatchTrace_cons_ok (attempt : String → Except String String)
    (m : String) (rest : List String) (lastError : Option String) (raw : String)
    (hm : attempt m = Except.ok raw) :
    dispatchTrace attempt (m :: rest) lastError = (Except.ok (sanitize raw), [m]) := by
  conv_lhs => rw [dispatchTrace]
  rw [hm]

/-- Exhausting the candidate list with only failures produces the aggregate
error carrying the last candidate's failure, after attempting every candidate
in order. -/
lemma dispatchTrace_all_fail (attempt : String → Except String String) :
    ∀ (models : List String) (hne : models ≠ []),
      (∀ m ∈ models, ∃ e, attempt m = Except.error e) →
      ∀ lastError, ∃ e, attempt (models.getLast hne) = Except.error e ∧
        dispatchTrace attempt models lastError =
          (Except.error ("Gemini API error: All models failed. Last error: " ++ e),
           models) := by
  intro models
  induction models with
  | nil => intro hne; exact absurd rfl hne
  | cons m rest ih =>
    intro hne hall lastError
    obtain ⟨e, he⟩ := hall m (List.mem_cons_self _ _)
    cases rest with
    | nil =>
      refine ⟨e, he, ?_⟩
      rw [dispatchTrace_cons_error attempt m [] lastError e he]
      rfl
    | cons m2 rest2 =>
      have hne2 : (m2 :: rest2) ≠ [] := by simp
      obtain ⟨e2, he2, heq⟩ := ih hne2
        (fun q hq => hall q (List.mem_cons_of_mem _ hq)) (some e)
      refine ⟨e2, ?_, ?_⟩
      · rw [List.getLast_cons hne2]
        exact he2
      · rw [dispatchTrace_cons_error attempt m (m2 :: rest2) lastError e he, heq]

/-- An error result of the fallback loop means every candidate failed. -/
lemma dispatchTrace_error_all_fail (attempt : String → Except String String) :
    ∀ (models : List String) (lastError : Option String) (msg : String),
      (dispatchTrace attempt models lastError).1 = Except.error msg →
      ∀ m ∈ models, ∃ e, attempt m = Except.error e := by
  intro models
  induction models with
  | nil =>
    intro _ _ _ m hm
    simp at hm
  | cons m rest ih =>
    intro lastError msg heq m2 hm2
    cases hatt : attempt m with
    | ok raw =>
      rw [dispatchTrace_cons_ok attempt m rest lastError raw hatt] at heq
      exact absurd heq (by simp)
    | error e =>
      have heq2 : (dispatchTrace attempt rest (some e)).1 = Except.error msg := by
        rw [dispatchTrace_cons_error attempt m rest lastError e hatt] at heq
        exact heq
      rcases List.mem_cons.mp hm2 with h | h
      · exact ⟨e, h ▸ hatt⟩
      · exact ih (some e) msg heq2 m2 h

/-- C1: with every candidate before `m` failing and `m` succeeding with
extractable text `raw`, the fallback loop attempts exactly the prefix up to
and including `m`, in the configured order and once each, and returns `m`'s
sanitized output immediately — the candidates after `m` are never attempted. -/
theorem claim_C1 (attempt : String → Except String String) (m raw : String)
    (hm : attempt m = Except.ok raw) :
    ∀ (pre post : List String),
      (∀ p ∈ pre, ∃ e, attempt p = Except.error e) →
      ∀ lastError, dispatchTrace attempt (pre ++ m :: post) lastError =
        (Except.ok (sanitize raw), pre ++ [m]) := by
  intro pre
  induction pre with
  | nil =>
    intro post _ lastError
    rw [List.nil_append, dispatchTrace_cons_ok attempt m post lastError raw hm]
    rfl
  | cons p pre ih =>
    intro post hpre lastError
    obtain ⟨e, he⟩ := hpre p (List.mem_cons_self _ _)
    have ih2 := ih post (fun q hq => hpre q (List.mem_cons_of_mem _ hq)) (some e)
    rw [List.cons_append, dispatchTrace_cons_error attempt p _ lastError e he, ih2,
      List.cons_append]

/-- C1 witness: with candidate A failing, B succeeding and C untried, the
loop returns B's sanitized output and the attempt trace is exactly A then B. -/
theorem claim_C1_witness :
    ((fun s => if s = "A" then Except.error "boom"
        else (Except.ok "raw" : Except String String)) "B" = Except.ok "raw") ∧
    (∀ p ∈ (["A"] : List String), ∃ e,
      (fun s => if s = "A" then Except.error "boom"
        else (Except.ok "raw" : Except String String)) p = Except.error e) ∧
    dispatchTrace (fun s => if s = "A" then Except.error "boom"
        else (Except.ok "raw" : Except String String))
      (["A"] ++ "B" :: ["C"]) none = (Except.ok (sanitize "raw"), ["A"] ++ ["B"]) := by
  refine ⟨rfl, ?_, ?_⟩
  · intro p hp
    simp only [List.mem_singleton] at hp
    subst hp
    exact ⟨"boom", rfl⟩
  · exact claim_C1 _ "B" "raw" rfl ["A"] ["C"]
      (by
        intro p hp
        simp only [List.mem_singleton] at hp
        subst hp
        exact ⟨"boom", rfl⟩) none

/-- C2: when every candidate fails, the loop attempts all of them and raises
the single aggregate error embedding the last candidate's failure — no code
is returned; and conversely an error result occurs only when every candidate
failed. -/
theorem claim_C2 (attempt : String → Except String String) (models : List String)
    (hne : models ≠ []) :
    ((∀ m ∈ models, ∃ e, attempt m = Except.error e) →
      ∃ e, attempt (models.getLast hne) = Except.error e ∧
        dispatchTrace attempt models none =
          (Except.error ("Gemini API error: All models failed. Last error: " ++ e),
           models)) ∧
    (∀ msg, (dispatchTrace attempt models none).1 = Except.error msg →
      ∀ m ∈ models, ∃ e, attempt m = Except.error e) := by
  constructor
  · intro hall
    exact dispatchTrace_all_fail attempt models hne hall none
  · intro msg h
    exact dispatchTrace_error_all_fail attempt models none msg h

/-- C2 witness: with both of two candidates failing, the caller gets one
aggregate error naming the last failure, and the error direction of the claim
holds at this instance. -/
theorem claim_C2_witness :
    ((["A", "B"] : List String) ≠ []) ∧
    (∀ m ∈ (["A", "B"] : List String), ∃ e,
      (fun _ => (Except.error "down" : Except String String)) m = Except.error e) ∧
    (∃ e, (fun _ => (Except.error "down" : Except String String))
        ((["A", "B"] : List String).getLast (by decide)) = Except.error e ∧
      dispatchTrace (fun _ => (Except.error "down" : Except String String))
          ["A", "B"] none =
        (Except.error ("Gemini API error: All models failed. Last error: " ++ e),
         ["A", "B"])) ∧
    (∀ msg, (dispatchTrace (fun _ => (Except.error "down" : Except String String))
        ["A", "B"] none).1 = Except.error msg →
      ∀ m ∈ (["A", "B"] : List String), ∃ e,
        (fun _ => (Except.error "down" : Except String String)) m = Except.error e) := by
  refine ⟨by decide, ?_, ?_, ?_⟩
  · intro m _
    exact ⟨"down", rfl⟩
  · exact (claim_C2 (fun _ => Except.error "down") ["A", "B"] (by decide)).1
      (fun m _ => ⟨"down", rfl⟩)
  · exact (claim_C2 (fun _ => Except.error "down") ["A", "B"] (by decide)).2

/-! ### Claims C6 and C7

In the source, a base64 decode failure raises `ValueError` out of
`generate_openscad` (gemini.py lines 64-68), which the route turns into an
HTTP 500 — the request is aborted and the dispatcher never runs; and the
prompt builder has no `previousCode` mode (schemas.py defines only
`imageBase64` and `prompt`; the context text is always
`"\n\nUser description: " + prompt`). -/

/-- C6 counterexample: with a decoder that fails on the malformed image
`"abc"` (as `base64.b64decode` does) and a generative API that would succeed,
the whole request returns the decode error, no model is ever attempted, and
no code is produced. -/
theorem claim_C6_counterexample :
    generate_openscadT true (fun _ => Except.error "Incorrect padding")
      (fun _ _ => Except.ok "cube();") "abc" "a cube" =
      (Except.error "Invalid base64 image data: Incorrect padding", []) ∧
    ∀ raw, (generate_openscadT true (fun _ => Except.error "Incorrect padding")
      (fun _ _ => Except.ok "cube();") "abc" "a cube").1 ≠ Except.ok raw := by
  refine ⟨rfl, ?_⟩
  intro raw h
  exact Except.noConfusion h

/-- C6 amended: for every request whose supplied image data fails base64
decoding, the generation request is aborted — `generate_openscad` raises
`ValueError("Invalid base64 image data: ...")` and no model dispatch occurs. -/
theorem claim_C6_amended (b64decode : String → Except String (List Nat))
    (attempt : String → List GenPart → Except String String)
    (image prompt e : String) (hdec : b64decode image = Except.error e) :
    generate_openscadT true b64decode attempt image prompt =
      (Except.error ("Invalid base64 image data: " ++ e), []) := by
  simp only [generate_openscadT, hdec]
  rfl

/-- C6 amended witness: the decode failure on `"abc"` aborts a request with a
valid prompt even though every model invocation would have succeeded. -/
theorem claim_C6_amended_witness :
    ((fun s => if s = "abc" then Except.error "Incorrect padding"
        else Except.ok ([] : List Nat)) "abc" = Except.error "Incorrect padding") ∧
    generate_openscadT true
      (fun s => if s = "abc" then Except.error "Incorrect padding"
        else Except.ok ([] : List Nat))
      (fun _ _ => Except.ok "cube();") "abc" "a cube" =
      (Except.error ("Invalid base64 image data: " ++ "Incorrect padding"), []) :=
  ⟨rfl, claim_C6_amended _ _ "abc" "a cube" "Incorrect padding" rfl⟩

/-- C7 counterexample: at the concrete prompt `"add a hole"`, the context
text the builder actually produces differs from the spec's new-design-mode
text `"USER INSTRUCTION: add a hole"`; the assembled parts contain the former
and not the latter. -/
theorem claim_C7_counterexample :
    userContextText "add a hole" ≠ spec_newDesignContext "add a hole" ∧
    GenPart.text (userContextText "add a hole") ∈ buildParts [] "add a hole" ∧
    GenPart.text (spec_newDesignContext "add a hole") ∉ buildParts [] "add a hole" := by
  refine ⟨by decide, ?_, by decide⟩
  simp [buildParts]

/-- C7 amended: the prompt builder has exactly one mode — the request schema
has no `previousCode` field, and for every prompt the built context text is
`"\n\nUser description: " + prompt`, which determines the prompt uniquely, so
distinct prompts give distinct context texts. -/
theorem claim_C7_amended :
    (∀ (imageBytes : List Nat) (prompt : String),
      buildParts imageBytes prompt =
        [GenPart.text SYSTEM_PROMPT,
         GenPart.text ("\n\nUser description: " ++ prompt),
         GenPart.bytes imageBytes "image/png"]) ∧
    (∀ p q : String, userContextText p = userContextText q → p = q) := by
  constructor
  · intro b p
    rfl
  · intro p q h
    have hd : ("\n\nUser description: " ++ p).data
        = ("\n\nUser description: " ++ q).data := congrArg String.data h
    rw [String.data_append, String.data_append] at hd
    have hpq := List.append_cancel_left hd
    cases p
    cases q
    exact congrArg String.mk hpq

/-- C7 amended witness: the builder equation and the injectivity of the
context text at concrete prompts. -/
theorem claim_C7_amended_witness :
    (buildParts [7] "a cube" =
      [GenPart.text SYSTEM_PROMPT,
       GenPart.text ("\n\nUser description: " ++ "a cube"),
       GenPart.bytes [7] "image/png"]) ∧
    (userContextText "a cube" = userContextText "a cube") ∧ "a cube" = "a cube" :=
  ⟨claim_C7_amended.1 [7] "a cube", rfl, claim_C7_amended.2 "a cube" "a cube" rfl⟩

/-! ### Sanitizer lemmas -/

/-- Fence test on the output of both scanners: does a bare fence occur
anywhere in the text. -/
def hasFence : List Char → Bool
  | [] => false
  | c :: rest => fence.isPrefixOf (c :: rest) || hasFence rest

/-- Unfolding of `hasFence` at a cons cell. -/
lemma hasFence_cons (c : Char) (rest : List Char) :
    hasFence (c :: rest) = (fence.isPrefixOf (c :: rest) || hasFence rest) := rfl

/-- The fence marker of the embedding is the list of three backquotes. -/
lemma fence_eq : fence = "```".toList := by decide

/-- Dropping a language tag never lengthens the text. -/
lemma tagDrop_length_le (l : List Char) : (tagDrop l).length ≤ l.length := by
  unfold tagDrop
  split_ifs <;> (try simp only [List.length_drop]) <;> omega

/-- Dropping an optional newline never lengthens the text. -/
lemma nlDrop_length_le (l : List Char) : (nlDrop l).length ≤ l.length := by
  cases l with
  | nil => simp [nlDrop]
  | cons c t =>
    simp only [nlDrop]
    split_ifs <;> simp only [List.length_cons] <;> omega

/-- Matching step of the first scanner. -/
lemma removeFencesAux_cons_pos (fuel : Nat) (c : Char) (rest : List Char)
    (h : fence.isPrefixOf (c :: rest) = true) :
    removeFencesAux (fuel + 1) (c :: rest) =
      removeFencesAux fuel (nlDrop (tagDrop (List.drop 2 rest))) := by
  simp [removeFencesAux, h]

/-- Non-matching step of the first scanner. -/
lemma removeFencesAux_cons_neg (fuel : Nat) (c : Char) (rest : List Char)
    (h : ¬ fence.isPrefixOf (c :: rest) = true) :
    removeFencesAux (fuel + 1) (c :: rest) = c :: removeFencesAux fuel rest := by
  simp [removeFencesAux, h]

/-- Non-matching step of the second scanner. -/
lemma removeTicksAux_cons_neg (fuel : Nat) (c : Char) (rest : List Char)
    (h : ¬ fence.isPrefixOf (c :: rest) = true) :
    removeTicksAux (fuel + 1) (c :: rest) = c :: removeTicksAux fuel rest := by
  simp [removeTicksAux, h]

/-- Fence prefix at a cons cell, unfolded one character. -/
lemma fence_isPrefixOf_cons (c : Char) (rest : List Char) :
    fence.isPrefixOf (c :: rest) = ((bq == c) && ([bq, bq]).isPrefixOf rest) := rfl

/-- Two-backquote prefix at a cons cell, unfolded one character. -/
lemma two_isPrefixOf_cons (c : Char) (rest : List Char) :
    ([bq, bq]).isPrefixOf (c :: rest) = ((bq == c) && ([bq]).isPrefixOf rest) := rfl

/-- One-backquote prefix at a cons cell. -/
lemma one_isPrefixOf_cons (c : Char) (rest : List Char) :
    ([bq]).isPrefixOf (c :: rest) = (bq == c) := by
  show ((bq == c) && List.isPrefixOf [] rest) = (bq == c)
  cases rest <;> simp

/-- A three-backquote prefix yields a two-backquote prefix. -/
lemma two_of_fence (l : List Char) (h : fence.isPrefixOf l = true) :
    ([bq, bq]).isPrefixOf l = true := by
  rw [List.isPrefixOf_iff_prefix] at h ⊢
  exact List.IsPrefix.trans ⟨[bq], rfl⟩ h

/-- A backquote heading the first scanner's output was already heading its
input, unless the input opened with a whole fence. -/
lemma lead_one_removeFencesAux (fuel : Nat) (l : List Char)
    (h : ([bq]).isPrefixOf (removeFencesAux fuel l) = true) :
    ([bq]).isPrefixOf l = true ∨ fence.isPrefixOf l = true := by
  cases fuel with
  | zero => exact Or.inl h
  | succ fuel =>
    cases l with
    | nil => exact absurd h (by simp [removeFencesAux, List.isPrefixOf])
    | cons c rest =>
      by_cases hf : fence.isPrefixOf (c :: rest) = true
      · exact Or.inr hf
      · rw [removeFencesAux_cons_neg fuel c rest hf, one_isPrefixOf_cons] at h
        left
        rw [one_isPrefixOf_cons]
        exact h

/-- Two backquotes heading the first scanner's output were already heading
its input, provided the input did not open with a whole fence. -/
lemma lead_two_removeFencesAux (fuel : Nat) (l : List Char)
    (hnf : ¬ fence.isPrefixOf l = true)
    (h : ([bq, bq]).isPrefixOf (removeFencesAux fuel l) = true) :
    ([bq, bq]).isPrefixOf l = true := by
  cases fuel with
  | zero => exact h
  | succ fuel =>
    cases l with
    | nil => exact absurd h (by simp [removeFencesAux, List.isPrefixOf])
    | cons c rest =>
      rw [removeFencesAux_cons_neg fuel c rest hnf, two_isPrefixOf_cons,
        Bool.and_eq_true] at h
      obtain ⟨hc, h1⟩ := h
      have hc2 : c = bq := (beq_iff_eq.mp hc).symm
      subst hc2
      have hnr : ¬ ([bq, bq]).isPrefixOf rest = true := by
        intro hr
        apply hnf
        rw [fence_isPrefixOf_cons, hr, Bool.and_true]
        exact beq_self_eq_true _
      have hfr : ¬ fence.isPrefixOf rest = true := fun hr => hnr (two_of_fence rest hr)
      rcases lead_one_removeFencesAux fuel rest h1 with h2 | h2
      · rw [two_isPrefixOf_cons, h2, Bool.and_true]
        exact beq_self_eq_true _
      · exact absurd h2 hfr

/-- The first scanner's output never contains a fence anywhere. -/
lemma hasFence_removeFencesAux :
    ∀ (fuel : Nat) (l : List Char), l.length ≤ fuel →
      hasFence (removeFencesAux fuel l) = false := by
  intro fuel
  induction fuel with
  | zero =>
    intro l hl
    have : l = [] := List.length_eq_zero.mp (Nat.le_zero.mp hl)
    subst this
    rfl
  | succ fuel ih =>
    intro l hl
    cases l with
    | nil => rfl
    | cons c rest =>
      by_cases hf : fence.isPrefixOf (c :: rest) = true
      · rw [removeFencesAux_cons_pos fuel c rest hf]
        apply ih
        have h1 := nlDrop_length_le (tagDrop (List.drop 2 rest))
        have h2 := tagDrop_length_le (List.drop 2 rest)
        have h3 : (List.drop 2 rest).length ≤ rest.length := by
          rw [List.length_drop]
          omega
        simp only [List.length_cons] at hl
        omega
      · rw [removeFencesAux_cons_neg fuel c rest hf]
        have hrest : hasFence (removeFencesAux fuel rest) = false := by
          apply ih
          simp only [List.length_cons] at hl
          omega
        rw [hasFence_cons, hrest, Bool.or_false]
        by_contra hcon
        rw [Bool.not_eq_false] at hcon
        rw [fence_isPrefixOf_cons, Bool.and_eq_true] at hcon
        obtain ⟨hc, h2⟩ := hcon
        have hc2 : c = bq := (beq_iff_eq.mp hc).symm
        subst hc2
        have hnr : ¬ ([bq, bq]).isPrefixOf rest = true := by
          intro hr
          apply hf
          rw [fence_isPrefixOf_cons, hr, Bool.and_true]
          exact beq_self_eq_true _
        have hfr : ¬ fence.isPrefixOf rest = true :=
          fun hr => hnr (two_of_fence rest hr)
        exact hnr (lead_two_removeFencesAux fuel rest hfr h2)

/-- The second scanner is the identity on fence-free text. -/
lemma removeTicksAux_id :
    ∀ (fuel : Nat) (l : List Char), hasFence l = false →
      removeTicksAux fuel l = l := by
  intro fuel
  induction fuel with
  | zero => intro l _; rfl
  | succ fuel ih =>
    intro l hl
    cases l with
    | nil => rfl
    | cons c rest =>
      rw [hasFence_cons, Bool.or_eq_false_iff] at hl
      rw [removeTicksAux_cons_neg fuel c rest (by rw [hl.1]; exact Bool.false_ne_true)]
      rw [ih rest hl.2]

/-- The first scanner is the identity on fence-free text. -/
lemma removeFencesAux_id :
    ∀ (fuel : Nat) (l : List Char), hasFence l = false →
      removeFencesAux fuel l = l := by
  intro fuel
  induction fuel with
  | zero => intro l _; rfl
  | succ fuel ih =>
    intro l hl
    cases l with
    | nil => rfl
    | cons c rest =>
      rw [hasFence_cons, Bool.or_eq_false_iff] at hl
      rw [removeFencesAux_cons_neg fuel c rest (by rw [hl.1]; exact Bool.false_ne_true)]
      rw [ih rest hl.2]

/-- Dropping a prefix of matches twice is the same as once. -/
lemma dropWhile_idem (p : Char → Bool) :
    ∀ l : List Char, List.dropWhile p (List.dropWhile p l) = List.dropWhile p l := by
  intro l
  induction l with
  | nil => rfl
  | cons c rest ih =>
    rw [List.dropWhile_cons]
    split_ifs with hc
    · exact ih
    · rw [List.dropWhile_cons, if_neg hc]

/-- The head exposed by `dropWhile` fails the predicate. -/
lemma dropWhile_head_false (p : Char → Bool) :
    ∀ (l : List Char) (a : Char) (t : List Char),
      List.dropWhile p l = a :: t → p a = false := by
  intro l
  induction l with
  | nil => intro a t h; exact absurd h (by simp)
  | cons c rest ih =>
    intro a t h
    rw [List.dropWhile_cons] at h
    split_ifs at h with hc
    · exact ih a t h
    · injection h with h1 _
      subst h1
      exact Bool.eq_false_iff.mpr hc

/-- The front of a stripped text carries no whitespace. -/
lemma dropWhile_pyStrip (l : List Char) :
    List.dropWhile pySpace (pyStrip l) = pyStrip l := by
  rcases hA : List.dropWhile pySpace l with _ | ⟨a, t⟩
  · rw [pyStrip, hA]
    rfl
  · have hpa : pySpace a = false := dropWhile_head_false pySpace l a t hA
    obtain ⟨w, hw⟩ :=
      List.dropWhile_suffix (l := (List.dropWhile pySpace l).reverse) pySpace
    have hBne : List.dropWhile pySpace (List.dropWhile pySpace l).reverse ≠ [] := by
      intro hnil
      rw [List.dropWhile_eq_nil_iff] at hnil
      have hmem : a ∈ (List.dropWhile pySpace l).reverse := by rw [hA]; simp
      have := hnil a hmem
      rw [hpa] at this
      exact Bool.false_ne_true this
    have hlastB : (List.dropWhile pySpace (List.dropWhile pySpace l).reverse).getLast?
        = some a := by
      have h2 : ((List.dropWhile pySpace l).reverse).getLast?
          = (List.dropWhile pySpace (List.dropWhile pySpace l).reverse).getLast?.or
            w.getLast? := by
        conv_lhs => rw [← hw]
        exact List.getLast?_append
      rcases hBl : (List.dropWhile pySpace (List.dropWhile pySpace l).reverse).getLast?
        with _ | x
      · exact absurd (List.getLast?_eq_none_iff.mp hBl) hBne
      · rw [hBl] at h2
        simp only [Option.or_some] at h2
        have h3 : ((List.dropWhile pySpace l).reverse).getLast? = some a := by
          rw [List.getLast?_reverse, hA]
          rfl
        rw [h3] at h2
        injection h2 with h4
        subst h4
        rfl
    have hhead : (List.dropWhile pySpace
        (List.dropWhile pySpace l).reverse).reverse.head? = some a := by
      rw [List.head?_reverse]
      exact hlastB
    rw [pyStrip]
    rcases hBr : (List.dropWhile pySpace (List.dropWhile pySpace l).reverse).reverse
      with _ | ⟨b, bt⟩
    · rfl
    · rw [hBr] at hhead
      simp only [List.head?_cons, Option.some.injEq] at hhead
      subst hhead
      rw [List.dropWhile_cons, hpa, if_neg (by simp)]

/-- The back of a stripped text carries no whitespace. -/
lemma dropWhile_reverse_pyStrip (l : List Char) :
    List.dropWhile pySpace (pyStrip l).reverse = (pyStrip l).reverse := by
  rw [pyStrip, List.reverse_reverse]
  exact dropWhile_idem pySpace _

/-- Stripping is idempotent. -/
lemma pyStrip_idem (l : List Char) : pyStrip (pyStrip l) = pyStrip l := by
  conv_lhs => rw [pyStrip]
  rw [dropWhile_pyStrip, dropWhile_reverse_pyStrip, List.reverse_reverse]

/-- A suffix of fence-free text is fence-free. -/
lemma hasFence_suffix_mono :
    ∀ (l2 l1 : List Char), l1 <:+ l2 → hasFence l2 = false → hasFence l1 = false := by
  intro l2
  induction l2 with
  | nil =>
    intro l1 h _
    rw [List.suffix_nil.mp h]
    rfl
  | cons c rest ih =>
    intro l1 h hf
    rw [List.suffix_cons_iff] at h
    rcases h with h | h
    · rw [h]
      exact hf
    · rw [hasFence_cons, Bool.or_eq_false_iff] at hf
      exact ih l1 h hf.2

/-- A prefix of fence-free text is fence-free. -/
lemma hasFence_prefix_mono :
    ∀ (l2 l1 : List Char), l1 <+: l2 → hasFence l2 = false → hasFence l1 = false := by
  intro l2
  induction l2 with
  | nil =>
    intro l1 h _
    rw [List.prefix_nil.mp h]
    rfl
  | cons c rest ih =>
    intro l1 h hf
    cases l1 with
    | nil => rfl
    | cons d t =>
      rw [List.cons_prefix_cons] at h
      obtain ⟨hd, ht⟩ := h
      subst hd
      rw [hasFence_cons, Bool.or_eq_false_iff] at hf
      rw [hasFence_cons, Bool.or_eq_false_iff]
      constructor
      · by_contra hcon
        rw [Bool.not_eq_false, List.isPrefixOf_iff_prefix] at hcon
        have htr : fence <+: d :: rest :=
          List.IsPrefix.trans hcon (List.cons_prefix_cons.mpr ⟨rfl, ht⟩)
        rw [← List.isPrefixOf_iff_prefix] at htr
        rw [hf.1] at htr
        exact Bool.false_ne_true htr
      · exact ih t ht hf.2

/-- Stripping preserves fence-freeness. -/
lemma hasFence_pyStrip (l : List Char) (h : hasFence l = false) :
    hasFence (pyStrip l) = false := by
  have h2 : hasFence (List.dropWhile pySpace l) = false :=
    hasFence_suffix_mono l _ (List.dropWhile_suffix pySpace) h
  obtain ⟨w, hw⟩ :=
    List.dropWhile_suffix (l := (List.dropWhile pySpace l).reverse) pySpace
  have hpre : pyStrip l <+: List.dropWhile pySpace l := by
    refine ⟨w.reverse, ?_⟩
    rw [pyStrip, ← List.reverse_append, hw, List.reverse_reverse]
  exact hasFence_prefix_mono _ _ hpre h2

/-- The sanitizer's output is fence-free. -/
lemma hasFence_sanitizeChars (l : List Char) : hasFence (sanitizeChars l) = false := by
  have h1 : hasFence (removeFences l) = false :=
    hasFence_removeFencesAux l.length l le_rfl
  have h2 : removeTicks (removeFences l) = removeFences l :=
    removeTicksAux_id _ _ h1
  rw [sanitizeChars, h2]
  exact hasFence_pyStrip _ h1

/-! ### Claims C8 and C9 -/

/-- List-level idempotence of the sanitizer. -/
lemma sanitizeChars_idem (l : List Char) :
    sanitizeChars (sanitizeChars l) = sanitizeChars l := by
  have hnf : hasFence (sanitizeChars l) = false := hasFence_sanitizeChars l
  have h1 : removeFences (sanitizeChars l) = sanitizeChars l :=
    removeFencesAux_id _ _ hnf
  have h2 : removeTicks (sanitizeChars l) = sanitizeChars l :=
    removeTicksAux_id _ _ hnf
  conv_lhs => rw [sanitizeChars]
  rw [h1, h2]
  exact pyStrip_idem _

/-- C8: the sanitizer is a pure deterministic function and is idempotent —
sanitizing twice equals sanitizing once, so already-clean code is returned
unchanged. -/
theorem claim_C8 : ∀ s : String, sanitize (sanitize s) = sanitize s := by
  intro s
  show String.mk (sanitizeChars (String.mk (sanitizeChars s.data)).data)
      = String.mk (sanitizeChars s.data)
  exact congrArg String.mk (sanitizeChars_idem s.data)

/-- C9: the sanitizer removes opening fences (with optional recognized
language tag) and closing fences wherever they appear — no fence marker
survives in any output — and then trims whitespace, the output being a fixed
point of the strip; in particular the fenced input collapses to `"CODE"`. -/
theorem claim_C9 :
    sanitize "```js\nCODE\n```" = "CODE" ∧
    (∀ l : List Char, hasFence (sanitizeChars l) = false) ∧
    (∀ l : List Char, pyStrip (sanitizeChars l) = sanitizeChars l) := by
  refine ⟨by decide, hasFence_sanitizeChars, ?_⟩
  intro l
  exact pyStrip_idem _
